import Mathlib

/-!
Verification of the pyvision3 annotation core (`pyvision/image.py`).

The `Image` class keeps a base raster (`self.data`, height × width with 1 or 3
channels) and a separate zero-initialized annotation layer
(`self.annotation_data`, height × width × 3, uint8).  Annotation methods draw
into the layer through native cv2 primitives after converting the user-facing
(r,g,b) colors with `_fix_color_tuple`; `as_annotated` alpha-blends the layer
onto (an upconverted copy of) the base raster at the positions where the layer
is non-zero.

The embedding below models:
  * colors and `_fix_color_tuple` exactly;
  * each annotate method as the sequence of native draw calls it issues
    (cv2 primitives are external collaborators, so a draw call is a record of
    the arguments handed to cv2, and its effect on the layer is an abstract
    coverage function);
  * the documented even-odd fill of `cv2.fillPoly` as a concrete parity predicate,
    to settle the polygon-hole claim;
  * the per-element masking of `as_annotated` and the numpy float-to-uint8
    truncation with exact rational arithmetic;
  * the ndarray branch of the constructor with an explicit store, to settle
    the buffer-ownership claims.
-/

namespace PyVision

/-! ### Python / numpy numeric primitives -/

/-- Python `int(x)` and the numpy cast of a float to an integer dtype: truncation
toward zero.  `Int.tdiv` is exactly truncated division, so for the exact
rational `q` this is the truncation of `q` toward zero. -/
def pyInt (q : ℚ) : ℤ := q.num.tdiv q.den

/-- Truncate both coordinates of a point, as in
`(int(x), int(y))` (source line 259) and `np.array(coords, dtype=int)`
(source lines 171–172). -/
def pyIntPt (p : ℚ × ℚ) : ℤ × ℤ := (pyInt p.1, pyInt p.2)

/-- Assignment in numpy of a float value into a `uint8` array: the value is
truncated toward zero and reduced to the low 8 bits. -/
def float2uint8 (q : ℚ) : ℕ := ((q.num.tdiv q.den) % 256).toNat

/-- The blend `alpha * o + (1 - alpha) * b` of source line 131, stored into the
`uint8` result array.  The rational `alpha * o + (1 - alpha) * b` equals
`(alpha.num * o + (alpha.den - alpha.num) * b) / alpha.den`, which is how it is
written here so that the definition evaluates by kernel reduction;
`blendU8_eq_formula` below proves it equal to the textbook formula. -/
def blendU8 (alpha : ℚ) (o b : ℕ) : ℕ :=
  float2uint8 (mkRat (alpha.num * o + ((alpha.den : ℤ) - alpha.num) * b) alpha.den)

/-! ### Colors and `_fix_color_tuple` -/

/-- A color triple as passed around the source: Python integers. -/
abbrev Color := ℤ × ℤ × ℤ

/-- Replace a zero color component by one (source lines 272–274). -/
def zero2one (x : ℤ) : ℤ := if x = 0 then 1 else x

/-- Model of `Image._fix_color_tuple` (source lines 265–275): puts the (r,g,b) tuple
into (b,g,r) order and replaces any zeros with ones. -/
def fix_color_tuple (color : Color) : Color :=
  (zero2one color.2.2, zero2one color.2.1, zero2one color.1)

/-! ### Native draw calls

Every annotate method bottoms out in a cv2 primitive drawing into
`self.annotation_data`.  cv2 is an external collaborator, so a primitive
invocation is recorded as a `DrawCall` holding the arguments the source passes
to it. `thickness` is the optional line-style argument forwarded through
`*args`/`**kwargs` (`none` when the caller does not supply one). -/

inductive DrawCall where
  | line (pt1 pt2 : ℤ × ℤ) (color : Color) (thickness : Option ℤ)
  | circle (ctr : ℤ × ℤ) (radius : ℤ) (color : Color) (thickness : Option ℤ)
  | rectangle (pt1 pt2 : ℤ × ℤ) (color : Color) (thickness : Option ℤ)
  | putText (txt : String) (org : ℤ × ℤ) (fontFace : ℕ) (fontScale : ℚ) (color : Color)
  | fillPoly (pts : List (List (ℤ × ℤ))) (color : Color)
  deriving DecidableEq

/-- The color argument handed to the native primitive. -/
def DrawCall.colorOf : DrawCall → Color
  | .line _ _ c _ => c
  | .circle _ _ c _ => c
  | .rectangle _ _ c _ => c
  | .putText _ _ _ _ c => c
  | .fillPoly _ c => c

/-! ### The annotate methods as draw-call traces -/

/-- Model of `Image.annotate_line` (source lines 209–224): fixes the color and calls
`cv2.line`. -/
def annotate_line (pt1 pt2 : ℤ × ℤ) (color : Color) (thickness : Option ℤ) :
    List DrawCall :=
  [.line pt1 pt2 (fix_color_tuple color) thickness]

/-- Model of `Image.annotate_circle` (source lines 187–207): fixes the color, truncates
the center coordinates with `int(...)` and calls `cv2.circle`. -/
def annotate_circle (ctr : ℚ × ℚ) (radius : ℤ) (color : Color)
    (thickness : Option ℤ) : List DrawCall :=
  [.circle (pyIntPt ctr) radius (fix_color_tuple color) thickness]

/-- Model of `Image.annotate_point` (source lines 180–185): a filled circle of radius 3
at the point. -/
def annotate_point (point : ℚ × ℚ) (color : Color) : List DrawCall :=
  annotate_circle point 3 color (some (-1))

/-- Model of `Image.annotate_rect` (source lines 226–232): fixes the color and calls
`cv2.rectangle`. -/
def annotate_rect (pt1 pt2 : ℤ × ℤ) (color : Color) (thickness : Option ℤ) :
    List DrawCall :=
  [.rectangle pt1 pt2 (fix_color_tuple color) thickness]

/-- Model of `Image.annotate_text` (source lines 234–250).  `textSize` stands for the
`(w, h)` pair returned by the external `cv2.getTextSize` call on
(`txt`, `fontFace`, `fontScale`, thickness 1). -/
def annotate_text (txt : String) (point : ℤ × ℤ) (color : Color)
    (bg_color : Option Color) (fontFace : ℕ) (fontScale : ℚ)
    (textSize : ℕ × ℕ) : List DrawCall :=
  (match bg_color with
   | some bg =>
     let point1 : ℤ × ℤ := (point.1 - 1, point.2 + 1)
     let point2 : ℤ × ℤ := (point1.1 + textSize.1 + 2, point1.2 - textSize.2 - 2)
     annotate_rect point1 point2 bg (some (-1))
   | none => []) ++
  [.putText txt point fontFace fontScale (fix_color_tuple color)]

/-- The consecutive pairs `(points[i-1], points[i])` of source lines 260–263. -/
def consecPairs : List (ℤ × ℤ) → List ((ℤ × ℤ) × (ℤ × ℤ))
  | [] => []
  | [_] => []
  | a :: b :: rest => (a, b) :: consecPairs (b :: rest)

/-- Model of `Image._draw_segments` (source lines 252–263): truncate the coordinates to
integers and draw a line segment between each consecutive pair. -/
def draw_segments (coords : List (ℚ × ℚ)) (color : Color) (thickness : Option ℤ) :
    List DrawCall :=
  (consecPairs (coords.map pyIntPt)).flatMap fun pq =>
    annotate_line pq.1 pq.2 color thickness

/-! ### Geometry and `annotate_shape` -/

/-- The shapely geometries the source dispatches on (source lines 162–178):
`LineString`, `LinearRing`, `MultiLineString` and `Polygon` are handled; the
`unsupported` constructor stands for every other shapely geometry kind (Point,
MultiPolygon, GeometryCollection, ...), on which the `if`/`elif` chain falls
through.  A polygon carries the coordinates of its exterior ring and the coordinate
lists of its interior rings (holes). -/
inductive Geometry where
  | lineString (coords : List (ℚ × ℚ))
  | linearRing (coords : List (ℚ × ℚ))
  | multiLineString (components : List (List (ℚ × ℚ)))
  | polygon (exterior : List (ℚ × ℚ)) (interiors : List (List (ℚ × ℚ)))
  | unsupported

/-- Model of `Image.annotate_shape` (source lines 134–178). -/
def annotate_shape (shape : Geometry) (color : Color) (fill_color : Option Color)
    (thickness : Option ℤ) : List DrawCall :=
  match shape with
  | .linearRing coords => draw_segments coords color thickness
  | .lineString coords => draw_segments coords color thickness
  | .multiLineString comps => comps.flatMap fun c => draw_segments c color thickness
  | .polygon ext ints =>
    (match fill_color with
     | some fc =>
       [.fillPoly ((ext.map pyIntPt) :: ints.map (fun r => r.map pyIntPt))
         (fix_color_tuple fc)]
     | none => []) ++
    draw_segments ext color thickness ++
    (ints.flatMap fun ring => draw_segments ring color thickness)
  | .unsupported => []

/-! ### Rasters and the annotation layer -/

/-- One overlay entry: a (B,G,R) triple of uint8 channel values. -/
abbrev Pixel := ℕ × ℕ × ℕ

/-- A height × width × 3 buffer such as `self.annotation_data`. -/
abbrev Raster := List (List Pixel)

/-- An abstract rasterizer for the native cv2 primitives: given a draw call and
a position (row `i`, column `j`), `some c` means the primitive writes the uint8
value `c` there, `none` that it leaves the position alone.  The cv2 primitives
draw in place into the existing buffer, which is what `applyCall` captures: it
rewrites values position by position and can neither add nor remove
positions. -/
abbrev Coverage := DrawCall → ℕ → ℕ → Option Pixel

/-- Apply one native draw call to the annotation layer under an abstract
coverage. -/
def applyCall (cov : Coverage) (call : DrawCall) (ov : Raster) : Raster :=
  ov.mapIdx fun i row => row.mapIdx fun j px => (cov call i j).getD px

/-- Apply the draw calls of a method to the annotation layer in order. -/
def applyCalls (cov : Coverage) (calls : List DrawCall) (ov : Raster) : Raster :=
  calls.foldl (fun acc c => applyCall cov c acc) ov

/-! ### `cv2.fillPoly`: even-odd fill

`cv2.fillPoly`, per its documentation, fills an area bounded by several
polygonal contours, filling
by the even-odd (crossing-parity) rule, which is how passing
`[exterior] + interiors` in one call (source line 173) leaves the holes
unfilled.  The model: a position is painted iff the total number of contour
edges crossed by a horizontal ray from the position is odd. -/

/-- Whether the horizontal ray from `p` toward `+x` crosses the edge from `a`
to `b`, with the standard half-open rule on the y-interval; the comparison of
`p.1` with the x-coordinate of the edge at height `p.2` is cross-multiplied to stay
in `ℤ`. -/
def edgeCrosses (p a b : ℤ × ℤ) : Bool :=
  (decide (p.2 < a.2) != decide (p.2 < b.2)) &&
  (let d := b.2 - a.2
   let lhs := (p.1 - a.1) * d
   let rhs := (b.1 - a.1) * (p.2 - a.2)
   if 0 < d then decide (lhs < rhs) else decide (rhs < lhs))

/-- The edges of a contour as `cv2.fillPoly` sees it: consecutive points plus
the closing edge back to the first point. -/
def ringEdges (ring : List (ℤ × ℤ)) : List ((ℤ × ℤ) × (ℤ × ℤ)) :=
  match ring with
  | [] => []
  | a :: rest => consecPairs ((a :: rest) ++ [a])

/-- Crossing parity of a position with respect to a single contour: `true` iff
the ray crosses an odd number of the edges of the contour (the position is inside
the contour). -/
def insideRing (p : ℤ × ℤ) (ring : List (ℤ × ℤ)) : Bool :=
  ((ringEdges ring).countP fun e => edgeCrosses p e.1 e.2) % 2 = 1

/-- Even-odd rule over all contours of one `fillPoly` call: painted iff the
total crossing count is odd, i.e. iff an odd number of contours contain the
position. -/
def paintParity (rings : List (List (ℤ × ℤ))) (p : ℤ × ℤ) : Bool :=
  (rings.countP fun r => insideRing p r) % 2 = 1

/-- The effect of `cv2.fillPoly(self.annotation_data, [exterior] + interiors,
color=c)` on the layer: position (row `i`, column `j`) has ray origin
`(x, y) = (j, i)`. -/
def fillPoly_apply (rings : List (List (ℤ × ℤ))) (c : Pixel) (ov : Raster) :
    Raster :=
  ov.mapIdx fun i row => row.mapIdx fun j px =>
    if paintParity rings ((j : ℤ), (i : ℤ)) then c else px

/-! ### The base raster and `as_annotated` -/

/-- Model of `self.data`: 1-channel data is a height × width array, 3-channel data a
height × width × 3 array (source line 90 reads the channel count off the
shape). -/
inductive RasterData where
  | gray (d : List (List ℕ))
  | bgr (d : Raster)
  deriving DecidableEq

/-- Model of `self.height`: `self.data.shape[0]` (source line 89). -/
def rasterRows : RasterData → ℕ
  | .gray d => d.length
  | .bgr d => d.length

/-- Model of `self.width`: `self.data.shape[1]` (source line 89; an ndarray is
rectangular, so this is the length of the first row). -/
def rasterCols : RasterData → ℕ
  | .gray d => (d.getD 0 []).length
  | .bgr d => (d.getD 0 []).length

/-- Model of `cv2.cvtColor(self.data, cv2.COLOR_GRAY2BGR)` (source line 128): replicate
the gray value into all three channels. -/
def grayToBGR (d : List (List ℕ)) : Raster :=
  d.map fun row => row.map fun g => (g, g, g)

/-- The `tmp_img` of `as_annotated` before blending (source lines 127–130):
the base raster upconverted to 3 channels when single-channel, else a copy. -/
def upchannel : RasterData → Raster
  | .gray d => grayToBGR d
  | .bgr d => d

/-- One channel of source line 131: `annotation_data.nonzero()` masks single
array elements, so a channel is blended exactly when the value of the layer in that
channel is non-zero, and keeps the base value otherwise. -/
def blendChannel (alpha : ℚ) (o t : ℕ) : ℕ :=
  if o ≠ 0 then blendU8 alpha o t else t

/-- Model of `Image.as_annotated` (source lines 105–132) as a function of the two
buffers. -/
def as_annotated (data : RasterData) (ann : Raster) (alpha : ℚ) : Raster :=
  (upchannel data).mapIdx fun i row => row.mapIdx fun j t =>
    let o := (ann.getD i []).getD j (0, 0, 0)
    (blendChannel alpha o.1 t.1, blendChannel alpha o.2.1 t.2.1,
      blendChannel alpha o.2.2 t.2.2)

/-! ### The `Image` object and its constructor -/

/-- The two buffers owned by a pyvision `Image`. -/
structure Image where
  data : RasterData
  annotation_data : Raster
  deriving DecidableEq

/-- The zero-initialized height × width × 3 annotation layer of source line
91. -/
def zeroLayer (h w : ℕ) : Raster :=
  List.replicate h (List.replicate w (0, 0, 0))

/-- Model of `Image.__init__` (source lines 89–91) after `self.data` is set: read
height and width off the shape of the data and allocate the zeroed annotation
layer. -/
def image_init (data : RasterData) : Image :=
  ⟨data, zeroLayer (rasterRows data) (rasterCols data)⟩

/-- Running a list of native draw calls against an image mutates only the
annotation layer (every cv2 call in the annotate methods targets
`self.annotation_data`). -/
def Image.applyDraws (img : Image) (cov : Coverage) (calls : List DrawCall) :
    Image :=
  { img with annotation_data := applyCalls cov calls img.annotation_data }

/-! ### A store model for buffer ownership

`self.data = source` (source line 80) keeps the ndarray of the caller itself.  To
state sharing and aliasing, buffers live in an explicit store of numpy arrays
and an image holds references into it. -/

/-- A store of numpy arrays; a reference is an index. -/
structure Store where
  cells : List RasterData
  deriving DecidableEq

/-- Allocate a fresh array in the store. -/
def Store.alloc (s : Store) (r : RasterData) : ℕ × Store :=
  (s.cells.length, ⟨s.cells ++ [r]⟩)

/-- Read the array a reference points at. -/
def Store.read (s : Store) (ref : ℕ) : RasterData :=
  s.cells.getD ref (.bgr [])

/-- Overwrite the array a reference points at (an in-place ndarray
mutation). -/
def Store.write (s : Store) (ref : ℕ) (r : RasterData) : Store :=
  ⟨s.cells.set ref r⟩

/-- An `Image` as references to its two buffers. -/
structure ImageRef where
  dataRef : ℕ
  annRef : ℕ
  deriving DecidableEq

/-- The ndarray branch of `Image.__init__` (source lines 79–80 and 89–91):
`self.data = source` aliases the array of the caller (no copy is taken), then a
fresh zeroed annotation layer is allocated. -/
def image_init_from_array (s : Store) (src : ℕ) : ImageRef × Store :=
  let d := s.read src
  let (annRef, s2) := s.alloc (.bgr (zeroLayer (rasterRows d) (rasterCols d)))
  (⟨src, annRef⟩, s2)

/-- Extract the 3-channel list from an annotation buffer (the annotation layer
is always allocated 3-channel). -/
def annPart : RasterData → Raster
  | .gray _ => []
  | .bgr d => d

/-- Model of `as_annotated` against the store: reads the two buffers, computes the
blended raster into a fresh array (`self.data.copy()` on line 130 or the fresh
`cv2.cvtColor` result on line 128 — the masked assignment of line 131 writes
only into that fresh array), and returns it. -/
def as_annotated_store (s : Store) (img : ImageRef) (alpha : ℚ) :
    Raster × Store :=
  let r := as_annotated (s.read img.dataRef) (annPart (s.read img.annRef)) alpha
  let (_, s2) := s.alloc (.bgr r)
  (r, s2)

/-! ### Observation helpers used by the statements -/

/-- All components of the colors handed to cv2 are non-zero. -/
abbrev nonzeroColor (c : Color) : Prop := c.1 ≠ 0 ∧ c.2.1 ≠ 0 ∧ c.2.2 ≠ 0

/-- A pixel whose channels are in the uint8 range. -/
abbrev pixLT256 (p : Pixel) : Prop := p.1 < 256 ∧ p.2.1 < 256 ∧ p.2.2 < 256

/-- A raster whose entries are all in the uint8 range (which every buffer the
source manipulates satisfies, both being uint8 ndarrays). -/
abbrev wf256 (r : Raster) : Prop := ∀ row ∈ r, ∀ px ∈ row, pixLT256 px

/-- The pixel of the `as_annotated` output at row `i`, column `j`. -/
def outPixel (data : RasterData) (ann : Raster) (alpha : ℚ) (i j : ℕ) : Pixel :=
  ((as_annotated data ann alpha).getD i []).getD j (0, 0, 0)

/-- The pixel of the (upconverted) base raster at row `i`, column `j`. -/
def basePixel (data : RasterData) (i j : ℕ) : Pixel :=
  ((upchannel data).getD i []).getD j (0, 0, 0)

/-- The pixel of the annotation layer at row `i`, column `j`. -/
def annPixel (ann : Raster) (i j : ℕ) : Pixel :=
  (ann.getD i []).getD j (0, 0, 0)

/-! ### Bridge lemmas: the computable blend is the textbook formula -/

theorem mkRat_blend_eq (a : ℚ) (o b : ℕ) :
    (mkRat (a.num * o + ((a.den : ℤ) - a.num) * b) a.den : ℚ) = a * o + (1 - a) * b := by
  rw [Rat.mkRat_eq_div]
  have hd : (a.den : ℚ) ≠ 0 := by exact_mod_cast a.den_ne_zero
  have hn : (a.num : ℚ) = a * a.den := (div_eq_iff hd).mp (Rat.num_div_den a)
  field_simp
  rw [hn]
  ring

theorem blendU8_eq_formula (a : ℚ) (o b : ℕ) :
    blendU8 a o b = float2uint8 (a * o + (1 - a) * b) := by
  rw [blendU8, mkRat_blend_eq]

/-- For a value in `[0, 256)`, the float-to-uint8 cast is just the floor
(truncation toward zero agrees with the floor on non-negatives, and no
wrap-around happens). -/
theorem float2uint8_eq_floor (q : ℚ) (h0 : 0 ≤ q) (h1 : q < 256) :
    (float2uint8 q : ℤ) = ⌊q⌋ := by
  have hnum : 0 ≤ q.num := Rat.num_nonneg.mpr h0
  have htd : q.num.tdiv q.den = ⌊q⌋ := by
    rw [Int.tdiv_eq_ediv hnum (Int.ofNat_nonneg _), Rat.floor_def]
  have hfl0 : 0 ≤ ⌊q⌋ := Int.floor_nonneg.mpr h0
  have hfl1 : ⌊q⌋ < 256 := Int.floor_lt.mpr (by exact_mod_cast h1)
  rw [float2uint8, htd, Int.emod_eq_of_lt hfl0 hfl1, Int.toNat_of_nonneg hfl0]

/-- Under the conditions that actually hold at source line 131 — `alpha` in
`[0,1]` and uint8 channel values — the stored channel is the floor of
`alpha * o + (1 - alpha) * b`. -/
theorem blendU8_eq_floor (a : ℚ) (o b : ℕ) (h0 : 0 ≤ a) (h1 : a ≤ 1)
    (ho : o < 256) (hb : b < 256) :
    (blendU8 a o b : ℤ) = ⌊a * o + (1 - a) * b⌋ := by
  have hoq : (o : ℚ) ≤ 255 := by exact_mod_cast Nat.lt_succ_iff.mp ho
  have hbq : (b : ℚ) ≤ 255 := by exact_mod_cast Nat.lt_succ_iff.mp hb
  have ho0 : (0 : ℚ) ≤ (o : ℚ) := Nat.cast_nonneg o
  have hb0 : (0 : ℚ) ≤ (b : ℚ) := Nat.cast_nonneg b
  rw [blendU8_eq_formula]
  apply float2uint8_eq_floor
  · have := mul_nonneg h0 ho0
    have := mul_nonneg (by linarith : (0:ℚ) ≤ 1 - a) hb0
    linarith
  · nlinarith

theorem blendU8_zero (o b : ℕ) (hb : b < 256) : blendU8 0 o b = b := by
  have h : ((0 : ℚ) * o + (1 - 0) * b) = (b : ℚ) := by ring
  have := float2uint8_eq_floor ((0 : ℚ) * o + (1 - 0) * b)
    (by rw [h]; exact Nat.cast_nonneg b) (by rw [h]; exact_mod_cast hb)
  rw [blendU8_eq_formula, h]
  rw [h] at this
  exact_mod_cast this.trans (Int.floor_natCast b)

theorem blendU8_one (o b : ℕ) (ho : o < 256) : blendU8 1 o b = o := by
  have h : ((1 : ℚ) * o + (1 - 1) * b) = (o : ℚ) := by ring
  have := float2uint8_eq_floor ((1 : ℚ) * o + (1 - 1) * b)
    (by rw [h]; exact Nat.cast_nonneg o) (by rw [h]; exact_mod_cast ho)
  rw [blendU8_eq_formula]
  rw [h] at this
  rw [h]
  exact_mod_cast this.trans (Int.floor_natCast o)

/-! ### List index helpers -/

theorem getD_mapIdx {α β : Type*} (l : List α) (f : ℕ → α → β) (i : ℕ)
    (hi : i < l.length) (d : β) (d0 : α) :
    (l.mapIdx f).getD i d = f i (l.getD i d0) := by
  rw [List.getD_eq_getElem _ _ (by rw [List.length_mapIdx]; exact hi),
    List.getD_eq_getElem _ _ hi]
  have h2 := List.get_mapIdx l f i hi
  simp only [List.get_eq_getElem] at h2
  exact h2

theorem getD_mapIdx_default {α β : Type*} (l : List α) (f : ℕ → α → β) (i : ℕ)
    (hi : ¬ i < l.length) (d : β) :
    (l.mapIdx f).getD i d = d :=
  List.getD_eq_default _ _ (by rw [List.length_mapIdx]; exact Nat.le_of_not_lt hi)

theorem getD_append_left {α : Type*} (l l2 : List α) (i : ℕ) (hi : i < l.length)
    (d : α) : (l ++ l2).getD i d = l.getD i d := by
  rw [List.getD_eq_getElem _ _ (by rw [List.length_append]; omega),
    List.getD_eq_getElem _ _ hi]
  exact List.getElem_append_left hi

/-- A list maps to itself under an index map fixing every entry. -/
theorem mapIdx_id_of_fixed {α : Type*} (l : List α) (f : ℕ → α → α)
    (h : ∀ i : ℕ, ∀ hi : i < l.length, f i (l.get ⟨i, hi⟩) = l.get ⟨i, hi⟩) :
    l.mapIdx f = l := by
  apply List.ext_get (by rw [List.length_mapIdx])
  intro n h1 h2
  rw [List.get_mapIdx l f n h2]
  exact h n h2

/-- In a list without duplicates, if the predicate holds at one member and
fails at every other member, it counts exactly one. -/
theorem countP_eq_one_of_mem {α : Type*} (l : List α) (P : α → Bool) (a : α)
    (hnd : l.Nodup) (ha : a ∈ l) (hPa : P a = true)
    (hother : ∀ b ∈ l, b ≠ a → P b = false) : l.countP P = 1 := by
  induction l with
  | nil => cases ha
  | cons x xs ih =>
    rw [List.countP_cons]
    rcases List.mem_cons.mp ha with hax | hax
    · subst hax
      have hxs : xs.countP P = 0 := by
        rw [List.countP_eq_zero]
        intro b hb
        have hbne : b ≠ a := by
          intro hba
          subst hba
          exact (List.nodup_cons.mp hnd).1 hb
        simpa using hother b (List.mem_cons_of_mem _ hb) hbne
      simp [hxs, hPa]
    · have hxa : x ≠ a := by
        intro hxa
        subst hxa
        exact (List.nodup_cons.mp hnd).1 hax
      have hPx := hother x (List.mem_cons_self _ _) hxa
      rw [ih (List.nodup_cons.mp hnd).2 hax
        (fun b hb hbne => hother b (List.mem_cons_of_mem _ hb) hbne)]
      simp [hPx]

/-! ### Pointwise description of `as_annotated` and dimension lemmas -/

/-- The pixel of the `as_annotated` output at row `i`, column `j` is the
channel-wise blend of the overlay pixel and the (upconverted) base pixel
there. -/
theorem as_annotated_getD (data : RasterData) (ann : Raster) (alpha : ℚ)
    (i j : ℕ) (hi : i < (upchannel data).length)
    (hj : j < ((upchannel data).getD i []).length) :
    ((as_annotated data ann alpha).getD i []).getD j (0, 0, 0) =
      (blendChannel alpha ((ann.getD i []).getD j (0, 0, 0)).1
          (((upchannel data).getD i []).getD j (0, 0, 0)).1,
        blendChannel alpha ((ann.getD i []).getD j (0, 0, 0)).2.1
          (((upchannel data).getD i []).getD j (0, 0, 0)).2.1,
        blendChannel alpha ((ann.getD i []).getD j (0, 0, 0)).2.2
          (((upchannel data).getD i []).getD j (0, 0, 0)).2.2) := by
  rw [as_annotated, getD_mapIdx _ _ i hi [] [], getD_mapIdx _ _ j hj (0, 0, 0) (0, 0, 0)]

theorem length_as_annotated (data : RasterData) (ann : Raster) (alpha : ℚ) :
    (as_annotated data ann alpha).length = (upchannel data).length := by
  rw [as_annotated, List.length_mapIdx]

theorem row_length_as_annotated (data : RasterData) (ann : Raster) (alpha : ℚ)
    (i : ℕ) (hi : i < (upchannel data).length) :
    ((as_annotated data ann alpha).getD i []).length =
      ((upchannel data).getD i []).length := by
  rw [as_annotated, getD_mapIdx _ _ i hi [] [], List.length_mapIdx]

theorem length_applyCall (cov : Coverage) (call : DrawCall) (ov : Raster) :
    (applyCall cov call ov).length = ov.length := by
  rw [applyCall, List.length_mapIdx]

theorem row_length_applyCall (cov : Coverage) (call : DrawCall) (ov : Raster)
    (i : ℕ) : ((applyCall cov call ov).getD i []).length =
      ((ov.getD i []).length) := by
  by_cases hi : i < ov.length
  · rw [applyCall, getD_mapIdx _ _ i hi [] [], List.length_mapIdx]
  · rw [applyCall, getD_mapIdx_default _ _ i hi [],
      List.getD_eq_default _ _ (Nat.le_of_not_lt hi)]

theorem length_applyCalls (cov : Coverage) (calls : List DrawCall) (ov : Raster) :
    (applyCalls cov calls ov).length = ov.length := by
  induction calls generalizing ov with
  | nil => rfl
  | cons c cs ih => rw [applyCalls, List.foldl_cons, ← applyCalls, ih,
      length_applyCall]

theorem row_length_applyCalls (cov : Coverage) (calls : List DrawCall)
    (ov : Raster) (i : ℕ) :
    ((applyCalls cov calls ov).getD i []).length = (ov.getD i []).length := by
  induction calls generalizing ov with
  | nil => rfl
  | cons c cs ih => rw [applyCalls, List.foldl_cons, ← applyCalls, ih,
      row_length_applyCall]

/-! ### Colors appearing in traces -/

theorem zero2one_ne_zero (x : ℤ) : zero2one x ≠ 0 := by
  rw [zero2one]
  split
  · exact one_ne_zero
  · assumption

theorem nonzeroColor_fix (c : Color) : nonzeroColor (fix_color_tuple c) :=
  ⟨zero2one_ne_zero _, zero2one_ne_zero _, zero2one_ne_zero _⟩

theorem colorOf_mem_draw_segments (coords : List (ℚ × ℚ)) (color : Color)
    (th : Option ℤ) (call : DrawCall) (h : call ∈ draw_segments coords color th) :
    call.colorOf = fix_color_tuple color := by
  rw [draw_segments] at h
  simp only [List.mem_flatMap, annotate_line, List.mem_singleton] at h
  obtain ⟨pq, _, hcall⟩ := h
  subst hcall
  rfl

theorem colorOf_mem_annotate_shape (shape : Geometry) (color : Color)
    (fc : Option Color) (th : Option ℤ) (call : DrawCall)
    (h : call ∈ annotate_shape shape color fc th) :
    nonzeroColor call.colorOf := by
  cases shape with
  | lineString coords =>
    rw [colorOf_mem_draw_segments coords color th call h]
    exact nonzeroColor_fix color
  | linearRing coords =>
    rw [colorOf_mem_draw_segments coords color th call h]
    exact nonzeroColor_fix color
  | multiLineString comps =>
    simp only [annotate_shape, List.mem_flatMap] at h
    obtain ⟨comp, _, hcall⟩ := h
    rw [colorOf_mem_draw_segments comp color th call hcall]
    exact nonzeroColor_fix color
  | polygon ext ints =>
    simp only [annotate_shape, List.mem_append] at h
    rcases h with (h | h) | h
    · cases fc with
      | none => cases h
      | some f =>
        simp only [List.mem_singleton] at h
        subst h
        exact nonzeroColor_fix f
    · rw [colorOf_mem_draw_segments ext color th call h]
      exact nonzeroColor_fix color
    · simp only [List.mem_flatMap] at h
      obtain ⟨ring, _, hcall⟩ := h
      rw [colorOf_mem_draw_segments ring color th call hcall]
      exact nonzeroColor_fix color
  | unsupported => cases h

theorem blendChannel_zero (o t : ℕ) (ht : t < 256) : blendChannel 0 o t = t := by
  rw [blendChannel]
  split
  · exact blendU8_zero o t ht
  · rfl

theorem blendChannel_one (o t : ℕ) (ho : o < 256) (hno : o ≠ 0) :
    blendChannel 1 o t = o := by
  rw [blendChannel, if_pos hno]
  exact blendU8_one o t ho

theorem blendChannel_cast_ne (alpha : ℚ) (o t : ℕ) (hz : o ≠ 0) (h0 : 0 ≤ alpha)
    (h1 : alpha ≤ 1) (ho : o < 256) (ht : t < 256) :
    ((blendChannel alpha o t : ℕ) : ℤ) = ⌊alpha * o + (1 - alpha) * t⌋ := by
  rw [blendChannel, if_pos hz]
  exact blendU8_eq_floor alpha o t h0 h1 ho ht

theorem blendChannel_cast_eq (alpha : ℚ) (o t : ℕ) (h0 : 0 ≤ alpha)
    (h1 : alpha ≤ 1) (ho : o < 256) (ht : t < 256) :
    ((blendChannel alpha o t : ℕ) : ℤ) =
      if o = 0 then (t : ℤ) else ⌊alpha * o + (1 - alpha) * t⌋ := by
  by_cases hz : o = 0
  · simp [blendChannel, hz]
  · rw [if_neg hz]
    exact blendChannel_cast_ne alpha o t hz h0 h1 ho ht

/-- The output pixel is the channel-wise blend of the overlay pixel and the
(upconverted) base pixel. -/
theorem outPixel_eq (data : RasterData) (ann : Raster) (alpha : ℚ) (i j : ℕ)
    (hi : i < (upchannel data).length)
    (hj : j < ((upchannel data).getD i []).length) :
    outPixel data ann alpha i j =
      (blendChannel alpha (annPixel ann i j).1 (basePixel data i j).1,
        blendChannel alpha (annPixel ann i j).2.1 (basePixel data i j).2.1,
        blendChannel alpha (annPixel ann i j).2.2 (basePixel data i j).2.2) := by
  rw [outPixel, as_annotated_getD data ann alpha i j hi hj]
  rfl

/-! ### Store access lemmas -/

theorem as_annotated_store_fst (s : Store) (img : ImageRef) (alpha : ℚ) :
    (as_annotated_store s img alpha).1 =
      as_annotated (s.read img.dataRef) (annPart (s.read img.annRef)) alpha := rfl

theorem as_annotated_store_read (s : Store) (img : ImageRef) (alpha : ℚ)
    (ref : ℕ) (href : ref < s.cells.length) :
    (as_annotated_store s img alpha).2.read ref = s.read ref := by
  have : (as_annotated_store s img alpha).2.cells =
      s.cells ++ [.bgr ((as_annotated_store s img alpha).1)] := rfl
  rw [Store.read, Store.read, this]
  exact getD_append_left _ _ _ href _

/-! ### Claims -/

/-- C6: for every shape whose geometry kind is not LineString, LinearRing,
MultiLineString or Polygon, `annotate_shape` is a silent no-op: no native draw
call is issued, the annotation layer (and the whole image) is left unchanged,
and no error is raised (the `if`/`elif` chain of source lines 162–178 falls
through and the method returns normally). -/
theorem C6_unsupported_geometry_noop (color : Color) (fill_color : Option Color)
    (th : Option ℤ) (img : Image) (cov : Coverage) :
    annotate_shape .unsupported color fill_color th = [] ∧
    img.applyDraws cov (annotate_shape .unsupported color fill_color th) = img :=
  ⟨rfl, rfl⟩

/-- C7: for a line or ring shape with an empty coordinate sequence,
`annotate_shape` issues no draw call and leaves the image unchanged, returning
normally (`_draw_segments` at source lines 252–263 loops over
`range(1, 0)`, which is empty). -/
theorem C7_empty_coords_noop (color : Color) (fill_color : Option Color)
    (th : Option ℤ) (img : Image) (cov : Coverage) :
    draw_segments [] color th = [] ∧
    annotate_shape (.lineString []) color fill_color th = [] ∧
    annotate_shape (.linearRing []) color fill_color th = [] ∧
    img.applyDraws cov (annotate_shape (.lineString []) color fill_color th) = img ∧
    img.applyDraws cov (annotate_shape (.linearRing []) color fill_color th) = img :=
  ⟨rfl, rfl, rfl, rfl, rfl⟩

/-- C10: `annotate_point(point, color)` is exactly
`annotate_circle(point, 3, color, thickness=-1)` (source line 185): the two
issue the same native draw calls — a filled circle of radius 3 at the point —
and produce the identical image state. -/
theorem C10_point_is_filled_circle (point : ℚ × ℚ) (color : Color) :
    annotate_point point color = annotate_circle point 3 color (some (-1)) ∧
    ∀ (img : Image) (cov : Coverage),
      img.applyDraws cov (annotate_point point color) =
        img.applyDraws cov (annotate_circle point 3 color (some (-1))) :=
  ⟨rfl, fun _ _ => rfl⟩

/-- C2: `as_annotated` is side-effect-free and deterministic: it leaves the
base raster and annotation buffer of the image unchanged (it blends into a fresh
copy, source lines 128–131), and calling it twice with the same opacity on the
unmodified image returns identical rasters. -/
theorem C2_as_annotated_pure (s : Store) (img : ImageRef) (alpha : ℚ)
    (hd : img.dataRef < s.cells.length) (ha : img.annRef < s.cells.length) :
    ((as_annotated_store s img alpha).2.read img.dataRef = s.read img.dataRef) ∧
    ((as_annotated_store s img alpha).2.read img.annRef = s.read img.annRef) ∧
    ((as_annotated_store (as_annotated_store s img alpha).2 img alpha).1 =
      (as_annotated_store s img alpha).1) := by
  refine ⟨as_annotated_store_read s img alpha _ hd,
    as_annotated_store_read s img alpha _ ha, ?_⟩
  rw [as_annotated_store_fst, as_annotated_store_fst,
    as_annotated_store_read s img alpha _ hd,
    as_annotated_store_read s img alpha _ ha]

theorem C2_witness :
    ((⟨0, 1⟩ : ImageRef).dataRef < (⟨[.bgr [[(1, 2, 3)]], .bgr [[(0, 0, 0)]]]⟩ : Store).cells.length) ∧
    ((⟨0, 1⟩ : ImageRef).annRef < (⟨[.bgr [[(1, 2, 3)]], .bgr [[(0, 0, 0)]]]⟩ : Store).cells.length) ∧
    ((as_annotated_store ⟨[.bgr [[(1, 2, 3)]], .bgr [[(0, 0, 0)]]]⟩ ⟨0, 1⟩ 1).2.read 0 =
      (⟨[.bgr [[(1, 2, 3)]], .bgr [[(0, 0, 0)]]]⟩ : Store).read 0) :=
  ⟨by decide, by decide,
    (C2_as_annotated_pure ⟨[.bgr [[(1, 2, 3)]], .bgr [[(0, 0, 0)]]]⟩ ⟨0, 1⟩ 1
      (by decide) (by decide)).1⟩

/-- C9 counterexample: the claim that an `Image` exclusively owns its base
buffer is false.  The constructor stores the very ndarray of the caller
(`self.data = source`, source line 80; the docstring says the array is just
wrapped): mutating that array afterwards changes the base
pixels, and two images constructed from the same array share the base
buffer. -/
theorem C9_ownership_counterexample :
    ((image_init_from_array ⟨[.gray [[5]]]⟩ 0).2.read
        (image_init_from_array ⟨[.gray [[5]]]⟩ 0).1.dataRef = .gray [[5]]) ∧
    (((image_init_from_array ⟨[.gray [[5]]]⟩ 0).2.write 0 (.gray [[9]])).read
        (image_init_from_array ⟨[.gray [[5]]]⟩ 0).1.dataRef = .gray [[9]]) ∧
    ((RasterData.gray [[9]]) ≠ .gray [[5]]) ∧
    ((image_init_from_array (image_init_from_array ⟨[.gray [[5]]]⟩ 0).2 0).1.dataRef =
      (image_init_from_array ⟨[.gray [[5]]]⟩ 0).1.dataRef) := by
  decide

/-- C9 amended: when constructed from an in-memory array the image aliases the
array of the caller as its base buffer (mutations through the caller remain
visible, and images built from the same array share it), while the overlay
buffer is freshly allocated on every construction and is never shared — with
the source array or with the buffers of any other image. -/
theorem C9_overlay_fresh_base_aliased (s : Store) (src : ℕ)
    (hs : src < s.cells.length) :
    ((image_init_from_array s src).1.dataRef = src) ∧
    ((image_init_from_array s src).1.annRef = s.cells.length) ∧
    ((image_init_from_array s src).1.annRef ≠ src) ∧
    ((image_init_from_array s src).2.read (image_init_from_array s src).1.annRef =
      .bgr (zeroLayer (rasterRows (s.read src)) (rasterCols (s.read src)))) ∧
    (∀ i, i < s.cells.length → (image_init_from_array s src).2.read i = s.read i) ∧
    (∀ src2, (image_init_from_array (image_init_from_array s src).2 src2).1.annRef ≠
      (image_init_from_array s src).1.annRef) := by
  have hcells : (image_init_from_array s src).2.cells =
      s.cells ++ [.bgr (zeroLayer (rasterRows (s.read src)) (rasterCols (s.read src)))] := rfl
  have hann : (image_init_from_array s src).1.annRef = s.cells.length := rfl
  refine ⟨rfl, hann, by rw [hann]; omega, ?_, ?_, ?_⟩
  · rw [Store.read, hcells, hann, List.getD_eq_getElem _ _ (by simp),
      List.getElem_concat_length]
    rfl
  · intro i hi
    rw [Store.read, Store.read, hcells]
    exact getD_append_left _ _ _ hi _
  · intro src2
    have h2 : (image_init_from_array (image_init_from_array s src).2 src2).1.annRef =
        (image_init_from_array s src).2.cells.length := rfl
    rw [h2, hcells, hann, List.length_append]
    simp

theorem C9_witness :
    (0 < (⟨[.gray [[5]]]⟩ : Store).cells.length) ∧
    ((image_init_from_array ⟨[.gray [[5]]]⟩ 0).1.annRef ≠ 0) :=
  ⟨by decide, (C9_overlay_fresh_base_aliased ⟨[.gray [[5]]]⟩ 0 (by decide)).2.2.1⟩

/-- C8: at construction the annotation layer is a zero-initialized
height × width × 3 raster (the `3` is the `Pixel` component count) whose first
two dimensions equal those of the base raster (source line 91), and running any
sequence of native draw calls under any rasterization leaves the data buffer
untouched and preserves the dimensions of the annotation layer, so the
invariant holds after every annotation operation. -/
theorem C8_layer_dimensions (data : RasterData) (img : Image) (cov : Coverage)
    (calls : List DrawCall) :
    ((image_init data).annotation_data.length = rasterRows data) ∧
    (∀ row ∈ (image_init data).annotation_data, row.length = rasterCols data) ∧
    (∀ row ∈ (image_init data).annotation_data, ∀ px ∈ row, px = ((0, 0, 0) : Pixel)) ∧
    ((img.applyDraws cov calls).data = img.data) ∧
    ((img.applyDraws cov calls).annotation_data.length = img.annotation_data.length) ∧
    (∀ i : ℕ, ((img.applyDraws cov calls).annotation_data.getD i []).length =
      (img.annotation_data.getD i []).length) := by
  refine ⟨?_, ?_, ?_, rfl, ?_, ?_⟩
  · simp [image_init, zeroLayer]
  · intro row hrow
    rw [List.eq_of_mem_replicate hrow]
    simp
  · intro row hrow px hpx
    rw [List.eq_of_mem_replicate hrow] at hpx
    exact List.eq_of_mem_replicate hpx
  · exact length_applyCalls cov calls img.annotation_data
  · intro i
    exact row_length_applyCalls cov calls img.annotation_data i

theorem C8_witness :
    (List.replicate 2 ((0, 0, 0) : Pixel) ∈ (image_init (.gray [[3, 4]])).annotation_data) ∧
    ((List.replicate 2 ((0, 0, 0) : Pixel)).length = rasterCols (.gray [[3, 4]])) :=
  ⟨by decide,
    (C8_layer_dimensions (.gray [[3, 4]]) (image_init (.gray [[3, 4]]))
      (fun _ _ _ => none) []).2.1 _ (by decide)⟩

/-- C3: every public annotation operation accepts its color as an (r,g,b)
triple and runs it through `_fix_color_tuple`, which reorders it into the
native (b,g,r) channel order of the raster and coerces every component equal to 0
to 1; consequently no color handed to a native cv2 draw call has a zero
component. -/
theorem C3_color_fixing :
    (∀ r g b : ℤ, fix_color_tuple (r, g, b) = (zero2one b, zero2one g, zero2one r)) ∧
    (zero2one 0 = 1) ∧
    (∀ x : ℤ, x ≠ 0 → zero2one x = x) ∧
    (∀ c : Color, nonzeroColor (fix_color_tuple c)) ∧
    (∀ p c, ∀ call ∈ annotate_point p c, call.colorOf = fix_color_tuple c) ∧
    (∀ ctr rad c th, ∀ call ∈ annotate_circle ctr rad c th,
      call.colorOf = fix_color_tuple c) ∧
    (∀ p1 p2 c th, ∀ call ∈ annotate_line p1 p2 c th,
      call.colorOf = fix_color_tuple c) ∧
    (∀ p1 p2 c th, ∀ call ∈ annotate_rect p1 p2 c th,
      call.colorOf = fix_color_tuple c) ∧
    (∀ txt pt c bg ff fs ts, ∀ call ∈ annotate_text txt pt c bg ff fs ts,
      nonzeroColor call.colorOf) ∧
    (∀ shape c fc th, ∀ call ∈ annotate_shape shape c fc th,
      nonzeroColor call.colorOf) := by
  refine ⟨fun r g b => rfl, rfl, fun x hx => if_neg hx, nonzeroColor_fix,
    ?_, ?_, ?_, ?_, ?_, colorOf_mem_annotate_shape⟩
  · intro p c call h
    simp only [annotate_point, annotate_circle, List.mem_singleton] at h
    subst h
    rfl
  · intro ctr rad c th call h
    simp only [annotate_circle, List.mem_singleton] at h
    subst h
    rfl
  · intro p1 p2 c th call h
    simp only [annotate_line, List.mem_singleton] at h
    subst h
    rfl
  · intro p1 p2 c th call h
    simp only [annotate_rect, List.mem_singleton] at h
    subst h
    rfl
  · intro txt pt c bg ff fs ts call h
    simp only [annotate_text, List.mem_append, List.mem_singleton] at h
    rcases h with h | h
    · cases bg with
      | none => cases h
      | some bgc =>
        simp only [annotate_rect, List.mem_singleton] at h
        subst h
        exact nonzeroColor_fix bgc
    · subst h
      exact nonzeroColor_fix c

theorem C3_witness :
    (DrawCall.line (0, 0) (1, 1) (fix_color_tuple (0, 255, 0)) none ∈
      annotate_line (0, 0) (1, 1) (0, 255, 0) none) ∧
    (DrawCall.line (0, 0) (1, 1) (fix_color_tuple (0, 255, 0)) none).colorOf =
      fix_color_tuple (0, 255, 0) :=
  ⟨by decide,
    C3_color_fixing.2.2.2.2.2.2.1 (0, 0) (1, 1) (0, 255, 0) none _ (by decide)⟩

/-- C5: for a polygon, when `fill_color` is given, `annotate_shape` issues one
`cv2.fillPoly` call carrying the exterior ring and all interior rings together
with the fixed fill color — under the even-odd rule of fillPoly a position inside
the exterior and strictly inside exactly one hole has even crossing parity, so
the fill does not paint it — and then strokes the exterior boundary and each
hole boundary with `color`.  When `fill_color` is absent no fill call is
issued and only the boundaries are stroked. -/
theorem C5_polygon_fill_holes (ext : List (ℚ × ℚ)) (ints : List (List (ℚ × ℚ)))
    (color fc : Color) (th : Option ℤ) (extC hole : List (ℤ × ℤ))
    (intsC : List (List (ℤ × ℤ))) (c : Pixel) (ov : Raster) (i j : ℕ)
    (hnd : intsC.Nodup) (hhole : hole ∈ intsC)
    (hpe : insideRing ((j : ℤ), (i : ℤ)) extC = true)
    (hph : insideRing ((j : ℤ), (i : ℤ)) hole = true)
    (hothers : ∀ r ∈ intsC, r ≠ hole → insideRing ((j : ℤ), (i : ℤ)) r = false) :
    (annotate_shape (.polygon ext ints) color (some fc) th =
      .fillPoly ((ext.map pyIntPt) :: ints.map (fun r => r.map pyIntPt))
          (fix_color_tuple fc) ::
        (draw_segments ext color th ++
          ints.flatMap fun ring => draw_segments ring color th)) ∧
    (annotate_shape (.polygon ext ints) color none th =
      draw_segments ext color th ++
        ints.flatMap fun ring => draw_segments ring color th) ∧
    (paintParity (extC :: intsC) ((j : ℤ), (i : ℤ)) = false) ∧
    (((fillPoly_apply (extC :: intsC) c ov).getD i []).getD j (0, 0, 0) =
      (ov.getD i []).getD j (0, 0, 0)) := by
  have hcount : intsC.countP (fun r => insideRing ((j : ℤ), (i : ℤ)) r) = 1 :=
    countP_eq_one_of_mem intsC _ hole hnd hhole hph hothers
  have h2 : (extC :: intsC).countP (fun r => insideRing ((j : ℤ), (i : ℤ)) r) = 2 := by
    rw [List.countP_cons, hcount, hpe]
    rfl
  have hpar : paintParity (extC :: intsC) ((j : ℤ), (i : ℤ)) = false := by
    simp only [paintParity, h2]
    decide
  refine ⟨rfl, rfl, hpar, ?_⟩
  by_cases hi : i < ov.length
  · by_cases hj : j < (ov.getD i []).length
    · rw [fillPoly_apply, getD_mapIdx _ _ i hi [] [],
        getD_mapIdx _ _ j hj (0, 0, 0) (0, 0, 0), hpar]
      simp
    · rw [fillPoly_apply, getD_mapIdx _ _ i hi [] [],
        List.getD_eq_default _ _ (by rw [List.length_mapIdx]; exact Nat.le_of_not_lt hj),
        List.getD_eq_default _ _ (Nat.le_of_not_lt hj)]
  · rw [fillPoly_apply, getD_mapIdx_default _ _ i hi [],
      List.getD_eq_default ov _ (Nat.le_of_not_lt hi)]

theorem C5_witness :
    (([ ((3 : ℤ), (3 : ℤ)), (7, 3), (7, 7), (3, 7), (3, 3)] ∈
      [[((3 : ℤ), (3 : ℤ)), (7, 3), (7, 7), (3, 7), (3, 3)]]) ∧
     insideRing (5, 5) [((0 : ℤ), (0 : ℤ)), (10, 0), (10, 10), (0, 10), (0, 0)] = true ∧
     insideRing (5, 5) [((3 : ℤ), (3 : ℤ)), (7, 3), (7, 7), (3, 7), (3, 3)] = true) ∧
    (((fillPoly_apply
        [[((0 : ℤ), (0 : ℤ)), (10, 0), (10, 10), (0, 10), (0, 0)],
         [((3 : ℤ), (3 : ℤ)), (7, 3), (7, 7), (3, 7), (3, 3)]]
        (9, 9, 9) (zeroLayer 8 8)).getD 5 []).getD 5 (0, 0, 0) =
      ((zeroLayer 8 8).getD 5 []).getD 5 (0, 0, 0)) :=
  ⟨⟨by decide, by decide, by decide⟩,
    (C5_polygon_fill_holes [] [] (255, 0, 0) (255, 0, 0) none
      [((0 : ℤ), (0 : ℤ)), (10, 0), (10, 10), (0, 10), (0, 0)]
      [((3 : ℤ), (3 : ℤ)), (7, 3), (7, 7), (3, 7), (3, 3)]
      [[((3 : ℤ), (3 : ℤ)), (7, 3), (7, 7), (3, 7), (3, 3)]]
      (9, 9, 9) (zeroLayer 8 8) 5 5
      (by decide) (by decide) (by decide) (by decide) (by decide)).2.2.2⟩

/-- C1 counterexample: `annotation_data.nonzero()` (source line 126) masks
single array elements, not whole pixels, so a pixel whose overlay value is
non-zero in one channel but zero in another is NOT blended on all three
channels.  With base pixel (7,7,7), overlay pixel (0,5,0) and opacity 1, the
claim requires the output pixel `1·overlay + 0·base = (0,5,0)` (the last
conjunct computes the claimed per-channel values with the blend of the source),
but the code produces (7,5,7): the zero overlay channels keep the base
value. -/
theorem C1_counterexample :
    (as_annotated (.bgr [[(7, 7, 7)]]) [[(0, 5, 0)]] 1 = [[(7, 5, 7)]]) ∧
    (annPixel [[(0, 5, 0)]] 0 0 ≠ (0, 0, 0)) ∧
    (outPixel (.bgr [[(7, 7, 7)]]) [[(0, 5, 0)]] 1 0 0 ≠ (0, 5, 0)) ∧
    (blendU8 1 0 7 = 0 ∧ blendU8 1 5 7 = 5) := by
  decide

/-- C1 amended: for every image and opacity in `[0,1]`, the `as_annotated`
output is computed per channel: a channel whose overlay value is zero keeps
the base (upconverted to 3 channels when the base is single-channel) value,
and a channel whose overlay value is non-zero becomes
`alpha·overlay + (1−alpha)·base` truncated to uint8; in particular a pixel
whose overlay value is all-zero equals the base pixel for every opacity. -/
theorem C1_per_channel_mask (data : RasterData) (ann : Raster) (alpha : ℚ)
    (i j : ℕ) (hi : i < (upchannel data).length)
    (hj : j < ((upchannel data).getD i []).length)
    (h0 : 0 ≤ alpha) (h1 : alpha ≤ 1)
    (hb : pixLT256 (basePixel data i j)) (ha : pixLT256 (annPixel ann i j)) :
    (((outPixel data ann alpha i j).1 : ℤ) =
      if (annPixel ann i j).1 = 0 then ((basePixel data i j).1 : ℤ)
      else ⌊alpha * (annPixel ann i j).1 + (1 - alpha) * (basePixel data i j).1⌋) ∧
    (((outPixel data ann alpha i j).2.1 : ℤ) =
      if (annPixel ann i j).2.1 = 0 then ((basePixel data i j).2.1 : ℤ)
      else ⌊alpha * (annPixel ann i j).2.1 + (1 - alpha) * (basePixel data i j).2.1⌋) ∧
    (((outPixel data ann alpha i j).2.2 : ℤ) =
      if (annPixel ann i j).2.2 = 0 then ((basePixel data i j).2.2 : ℤ)
      else ⌊alpha * (annPixel ann i j).2.2 + (1 - alpha) * (basePixel data i j).2.2⌋) ∧
    (annPixel ann i j = (0, 0, 0) →
      outPixel data ann alpha i j = basePixel data i j) := by
  rw [outPixel_eq data ann alpha i j hi hj]
  refine ⟨blendChannel_cast_eq alpha _ _ h0 h1 ha.1 hb.1,
    blendChannel_cast_eq alpha _ _ h0 h1 ha.2.1 hb.2.1,
    blendChannel_cast_eq alpha _ _ h0 h1 ha.2.2 hb.2.2, ?_⟩
  intro hz
  rw [hz]
  simp [blendChannel]

theorem C1_witness :
    (0 < (upchannel (.bgr [[(2, 2, 2)]])).length) ∧
    ((0 : ℚ) ≤ 1) ∧
    (annPixel [[((1 : ℕ), 1, 1)]] 0 0 = (0, 0, 0) →
      outPixel (.bgr [[(2, 2, 2)]]) [[(1, 1, 1)]] 1 0 0 =
        basePixel (.bgr [[(2, 2, 2)]]) 0 0) :=
  ⟨by decide, by decide,
    (C1_per_channel_mask (.bgr [[(2, 2, 2)]]) [[(1, 1, 1)]] 1 0 0 (by decide)
      (by decide) (by decide) (by decide) (by decide) (by decide)).2.2.2⟩

/-- C4 counterexample: the stored channel is the float-to-uint8 cast of
`alpha·overlay + (1−alpha)·base`, which truncates toward zero — it does not
round.  With overlay channel 1, base channel 2 and opacity 1/2 the exact blend
is 3/2: rounding gives 2, but the code stores 1. -/
theorem C4_counterexample :
    (as_annotated (.bgr [[(2, 2, 2)]]) [[(1, 1, 1)]] (mkRat 1 2) = [[(1, 1, 1)]]) ∧
    (mkRat 1 2 = 1 / 2) ∧
    (round ((1 / 2 : ℚ) * 1 + (1 - 1 / 2) * 2) = 2) ∧
    ((1 : ℕ) ≠ 2) :=
  ⟨by decide, by norm_num [Rat.mkRat_eq_div], by norm_num [round_eq], by decide⟩

/-- C4 amended: at every pixel whose overlay holds a drawn color (all
components ≥ 1), each output channel is `alpha·overlay + (1−alpha)·base`
truncated to an integer (the floor, since the value is non-negative) — not
rounded; in particular at opacity 0 the output equals the (upconverted) base
raster everywhere and at opacity 1 it equals the overlay at every drawn
pixel. -/
theorem C4_trunc_blend (data : RasterData) (ann : Raster) (alpha : ℚ)
    (i j : ℕ) (hi : i < (upchannel data).length)
    (hj : j < ((upchannel data).getD i []).length)
    (h0 : 0 ≤ alpha) (h1 : alpha ≤ 1)
    (hb : pixLT256 (basePixel data i j)) (ha : pixLT256 (annPixel ann i j))
    (hdrawn : 1 ≤ (annPixel ann i j).1 ∧ 1 ≤ (annPixel ann i j).2.1 ∧
      1 ≤ (annPixel ann i j).2.2) :
    (((outPixel data ann alpha i j).1 : ℤ) =
      ⌊alpha * (annPixel ann i j).1 + (1 - alpha) * (basePixel data i j).1⌋) ∧
    (((outPixel data ann alpha i j).2.1 : ℤ) =
      ⌊alpha * (annPixel ann i j).2.1 + (1 - alpha) * (basePixel data i j).2.1⌋) ∧
    (((outPixel data ann alpha i j).2.2 : ℤ) =
      ⌊alpha * (annPixel ann i j).2.2 + (1 - alpha) * (basePixel data i j).2.2⌋) ∧
    (alpha = 0 → outPixel data ann alpha i j = basePixel data i j) ∧
    (alpha = 1 → outPixel data ann alpha i j = annPixel ann i j) ∧
    (wf256 (upchannel data) → as_annotated data ann 0 = upchannel data) := by
  have hz1 : (annPixel ann i j).1 ≠ 0 := Nat.one_le_iff_ne_zero.mp hdrawn.1
  have hz2 : (annPixel ann i j).2.1 ≠ 0 := Nat.one_le_iff_ne_zero.mp hdrawn.2.1
  have hz3 : (annPixel ann i j).2.2 ≠ 0 := Nat.one_le_iff_ne_zero.mp hdrawn.2.2
  rw [outPixel_eq data ann alpha i j hi hj]
  refine ⟨blendChannel_cast_ne alpha _ _ hz1 h0 h1 ha.1 hb.1,
    blendChannel_cast_ne alpha _ _ hz2 h0 h1 ha.2.1 hb.2.1,
    blendChannel_cast_ne alpha _ _ hz3 h0 h1 ha.2.2 hb.2.2, ?_, ?_, ?_⟩
  · intro h
    subst h
    rw [blendChannel_zero _ _ hb.1, blendChannel_zero _ _ hb.2.1,
      blendChannel_zero _ _ hb.2.2]
  · intro h
    subst h
    rw [blendChannel_one _ _ ha.1 hz1, blendChannel_one _ _ ha.2.1 hz2,
      blendChannel_one _ _ ha.2.2 hz3]
  · intro hwf
    rw [as_annotated]
    apply mapIdx_id_of_fixed
    intro i2 hi2
    apply mapIdx_id_of_fixed
    intro j2 hj2
    have hrow : (upchannel data).get ⟨i2, hi2⟩ ∈ upchannel data :=
      List.get_mem _ _ _
    have hpx : ((upchannel data).get ⟨i2, hi2⟩).get ⟨j2, hj2⟩ ∈
        (upchannel data).get ⟨i2, hi2⟩ := List.get_mem _ _ _
    have hlt := hwf _ hrow _ hpx
    dsimp only
    rw [blendChannel_zero _ _ hlt.1, blendChannel_zero _ _ hlt.2.1,
      blendChannel_zero _ _ hlt.2.2]

theorem C4_witness :
    (1 ≤ (annPixel [[((1 : ℕ), 1, 1)]] 0 0).1) ∧
    (outPixel (.bgr [[(2, 2, 2)]]) [[(1, 1, 1)]] 1 0 0 = annPixel [[(1, 1, 1)]] 0 0) :=
  ⟨by decide,
    (C4_trunc_blend (.bgr [[(2, 2, 2)]]) [[(1, 1, 1)]] 1 0 0 (by decide) (by decide)
      (by decide) (by decide) (by decide) (by decide)
      ⟨by decide, by decide, by decide⟩).2.2.2.2.1 rfl⟩

end PyVision
